import Mathlib

/-!
Verification of the diagram layout and view engine of the ai-digrm repository.

The diagram code (App.tsx and the two DiagramView versions — one in
DiagramView.tsx, a second with touch handlers embedded in
src/src/components/DiagramNode.tsx) is embedded shallowly:
world coordinates (JS floating-point numbers) are modelled by exact
rationals, JS arrays by lists, the JS `Map` by an association list, and
the nondeterministic parts (`Math.random`, `Math.cos`/`Math.sin`,
`Math.pow`, `Date.now`) are taken as explicit parameters, so that every
definition is a pure function of its inputs exactly mirroring the
source's control flow.
-/

namespace AiDigrm

/-- The five node kinds of `types.ts` (`NodeType`). -/
inductive NodeType where
  | user
  | ai
  | source
  | system
  | code
deriving DecidableEq

/-- `Source` of `types.ts`: a cited web source. -/
structure Source where
  uri : String
  title : String
deriving DecidableEq

/-- `WeatherData` of `types.ts`. -/
structure WeatherData where
  location : String
  high : String
  low : String
deriving DecidableEq

/-- Stock movement direction, from `types.ts` (`'up' | 'down' | 'neutral'`). -/
inductive StockDirection where
  | up
  | down
  | neutral
deriving DecidableEq

/-- `StockData` of `types.ts`. -/
structure StockData where
  name : String
  symbol : String
  price : String
  change : String
  changePercent : String
  direction : StockDirection
deriving DecidableEq

/-- `CodeData` of `types.ts`. -/
structure CodeData where
  language : String
  content : String
deriving DecidableEq

/-- `NodeData` of `types.ts`; optional JS fields become `Option`s. -/
structure NodeData where
  text : String
  uri : Option String := none
  sources : Option (List Source) := none
  isLoading : Option Bool := none
  weather : Option WeatherData := none
  stock : Option StockData := none
  reasoning : Option String := none
  language : Option String := none
deriving DecidableEq

/-- A point in world coordinates (`{ x, y }` in the source). -/
structure Pt where
  x : ℚ
  y : ℚ
deriving DecidableEq

/-- `DiagramNode` of `types.ts`: a positioned, sized node of the diagram. -/
structure DiagramNode where
  id : String
  type : NodeType
  data : NodeData
  position : Pt
  width : ℚ
  height : ℚ
deriving DecidableEq

/-- `Edge` of `types.ts`: a directed edge between two node ids. -/
structure Edge where
  id : String
  source : String
  target : String
deriving DecidableEq

/-- The viewport transform held by `DiagramView` (`{ scale, x, y }`):
screen = world * scale + translate. -/
structure Transform where
  scale : ℚ
  x : ℚ
  y : ℚ
deriving DecidableEq

/-! ## Viewport controller (DiagramView.tsx) -/

/-- `handleWheel` of DiagramView.tsx (lines 184-202), as the pure update of
the previous transform.  `powFn` stands for JS `Math.pow` (applied as
`Math.pow 0.995 deltaY` when ctrl is held); the rest of the arithmetic is
exact.  Clamping: `Math.max(0.1, Math.min(2, prev.scale * scaleFactor))`. -/
def handleWheel (powFn : ℚ → ℚ → ℚ) (prev : Transform)
    (clientX clientY rectLeft rectTop deltaY : ℚ) (ctrlKey : Bool) : Transform :=
  let scaleFactor := if ctrlKey then powFn 0.995 deltaY else 1 - deltaY * 0.001
  let newScale := max 0.1 (min 2 (prev.scale * scaleFactor))
  let mouseX := clientX - rectLeft
  let mouseY := clientY - rectTop
  let worldX := (mouseX - prev.x) / prev.scale
  let worldY := (mouseY - prev.y) / prev.scale
  { scale := newScale, x := mouseX - worldX * newScale, y := mouseY - worldY * newScale }

/-- The two-finger pinch branch of `handleTouchMove` in the second
DiagramView version (src/src/components/DiagramNode.tsx lines 496-522):
`sqrtFn` stands for the foreign `Math.sqrt` applied to the squared finger
distance.  The transform update fires only when the previously recorded
pinch distance is positive (`lastPinchDist.current > 0`); it scales by
newDist / lastPinchDist with the same [0.1, 2] clamp as the wheel zoom and
anchors at the touch-pair midpoint within the view; otherwise the transform
is left unchanged (`setTransform` is not called). -/
def handleTouchMovePinch (sqrtFn : ℚ → ℚ) (prev : Transform)
    (t0x t0y t1x t1y rectLeft rectTop lastPinchDist : ℚ) : Transform :=
  let dx := t0x - t1x
  let dy := t0y - t1y
  let newDist := sqrtFn (dx * dx + dy * dy)
  if 0 < lastPinchDist then
    let pinchCenterX := (t0x + t1x) / 2 - rectLeft
    let pinchCenterY := (t0y + t1y) / 2 - rectTop
    let scaleFactor := newDist / lastPinchDist
    let newScale := max 0.1 (min 2 (prev.scale * scaleFactor))
    let worldX := (pinchCenterX - prev.x) / prev.scale
    let worldY := (pinchCenterY - prev.y) / prev.scale
    { scale := newScale
      x := pinchCenterX - worldX * newScale
      y := pinchCenterY - worldY * newScale }
  else prev

/-- `focusOnNode` of DiagramView.tsx (lines 127-139): the target transform
of the animated focus (targetScale fixed at 1.0, node center moved to the
viewport center). -/
def focusOnNodeTransform (node : DiagramNode) (viewWidth viewHeight : ℚ) : Transform :=
  { scale := 1
    x := -node.position.x * 1 + viewWidth / 2
    y := -node.position.y * 1 + viewHeight / 2 }

/-- The `minX/maxX/minY/maxY` fold of `zoomToFit` (lines 145-151), for the
nonempty node list `n0 :: rest`; JS starts the fold from ±Infinity, which
for a nonempty list is the same as starting from the first node's extents. -/
def fitBounds (n0 : DiagramNode) (rest : List DiagramNode) : ℚ × ℚ × ℚ × ℚ :=
  rest.foldl
    (fun acc n =>
      (min acc.1 (n.position.x - n.width / 2),
       max acc.2.1 (n.position.x + n.width / 2),
       min acc.2.2.1 (n.position.y - n.height / 2),
       max acc.2.2.2 (n.position.y + n.height / 2)))
    (n0.position.x - n0.width / 2, n0.position.x + n0.width / 2,
     n0.position.y - n0.height / 2, n0.position.y + n0.height / 2)

/-- `zoomToFit` of DiagramView.tsx (lines 141-174): `none` when there are no
nodes (the handler returns without touching the transform); on a degenerate
content box it falls back to focusing the first node; otherwise scale =
`Math.min(scaleX, scaleY, 1.2)` with 150-unit padding, centering the box. -/
def zoomToFit (nodes : List DiagramNode) (viewWidth viewHeight : ℚ) : Option Transform :=
  match nodes with
  | [] => none
  | n0 :: rest =>
    let b := fitBounds n0 rest
    let contentWidth := b.2.1 - b.1
    let contentHeight := b.2.2.2 - b.2.2.1
    if contentWidth ≤ 0 ∨ contentHeight ≤ 0 then
      some (focusOnNodeTransform n0 viewWidth viewHeight)
    else
      let padding : ℚ := 150
      let scaleX := (viewWidth - padding * 2) / contentWidth
      let scaleY := (viewHeight - padding * 2) / contentHeight
      let newScale := min (min scaleX scaleY) 1.2
      let contentCenterX := b.1 + contentWidth / 2
      let contentCenterY := b.2.2.1 + contentHeight / 2
      some { scale := newScale
             x := -contentCenterX * newScale + viewWidth / 2
             y := -contentCenterY * newScale + viewHeight / 2 }

/-- A zero-width pair of nodes spanning x ∈ [0, 10000], used to exhibit a
zoom-to-fit scale below 0.1. -/
def c4NodeA : DiagramNode :=
  { id := "a", type := .system, data := { text := "a" }
    position := ⟨0, 0⟩, width := 0, height := 100 }

/-- Companion node of `c4NodeA` at x = 10000. -/
def c4NodeB : DiagramNode :=
  { id := "b", type := .ai, data := { text := "b" }
    position := ⟨10000, 0⟩, width := 0, height := 100 }

/-- Claim C4 counterexample: on a 800×600 viewport with two zero-width nodes
spanning x ∈ [0, 10000], `zoomToFit` produces scale 1/20, which is below the
claimed lower bound 0.1 — the fit scale `min(scaleX, scaleY, 1.2)` is not
clamped from below. -/
theorem C4_claim_counterexample :
    zoomToFit [c4NodeA, c4NodeB] 800 600 = some ⟨1/20, 150, 300⟩ ∧
      ¬ ((0.1 : ℚ) ≤ 1/20) := by
  constructor
  · norm_num [zoomToFit, fitBounds, c4NodeA, c4NodeB, focusOnNodeTransform]
  · norm_num

/-- Claim C4 (amended): the wheel zoom always clamps the scale into
[0.1, 2]; the pinch branch of `handleTouchMove` keeps a scale in [0.1, 2]
inside [0.1, 2] (it either applies the same clamp or leaves the transform
unchanged); animated focus-on-node sets scale exactly 1; but zoom-to-fit
only guarantees scale ≤ 1.2 (min with the fit scales), with no lower clamp
at 0.1. -/
theorem C4_scale_bounds :
    (∀ (powFn : ℚ → ℚ → ℚ) (prev : Transform) (cx cy rl rt dy : ℚ) (ctrl : Bool),
        0.1 ≤ (handleWheel powFn prev cx cy rl rt dy ctrl).scale ∧
        (handleWheel powFn prev cx cy rl rt dy ctrl).scale ≤ 2) ∧
    (∀ (sqrtFn : ℚ → ℚ) (prev : Transform) (t0x t0y t1x t1y rl rt lpd : ℚ),
        0.1 ≤ prev.scale → prev.scale ≤ 2 →
        0.1 ≤ (handleTouchMovePinch sqrtFn prev t0x t0y t1x t1y rl rt lpd).scale ∧
        (handleTouchMovePinch sqrtFn prev t0x t0y t1x t1y rl rt lpd).scale ≤ 2) ∧
    (∀ (node : DiagramNode) (vw vh : ℚ), (focusOnNodeTransform node vw vh).scale = 1) ∧
    (∀ (nodes : List DiagramNode) (vw vh : ℚ) (t : Transform),
        zoomToFit nodes vw vh = some t → t.scale ≤ 1.2) := by
  refine ⟨fun powFn prev cx cy rl rt dy ctrl => ⟨le_max_left _ _, ?_⟩,
          fun sqrtFn prev t0x t0y t1x t1y rl rt lpd hlo hhi => ?_,
          fun node vw vh => rfl,
          fun nodes vw vh t h => ?_⟩
  · exact max_le (by norm_num) (min_le_left _ _)
  · rw [handleTouchMovePinch]
    split
    · exact ⟨le_max_left _ _, max_le (by norm_num) (min_le_left _ _)⟩
    · exact ⟨hlo, hhi⟩
  · match nodes, h with
    | n0 :: rest, h =>
      simp only [zoomToFit] at h
      split at h
      · cases h
        norm_num [focusOnNodeTransform]
      · cases h
        exact min_le_right _ _

/-- Witness for the amended claim C4: the zoom-to-fit bound, discharged on a
concrete single-node diagram (degenerate box, so the focus fallback fires). -/
theorem C4_scale_bounds_witness :
    (Transform.mk 1 400 300).scale ≤ 1.2 :=
  C4_scale_bounds.2.2.2 [c4NodeA] 800 600 ⟨1, 400, 300⟩
    (by norm_num [zoomToFit, fitBounds, c4NodeA, focusOnNodeTransform])

/-- Claim C7: for a wheel-zoom step from a transform whose scale lies in
[0.1, 2], the world point under the pointer is unchanged: converting the
pointer back to world space with the new scale and translate gives the same
world coordinates as with the old ones, on both axes, even when the new
scale was clamped. -/
theorem C7_wheel_anchor_invariant (powFn : ℚ → ℚ → ℚ) (prev : Transform)
    (cx cy rl rt dy : ℚ) (ctrl : Bool)
    (_hlo : 0.1 ≤ prev.scale) (_hhi : prev.scale ≤ 2) :
    ((cx - rl) - (handleWheel powFn prev cx cy rl rt dy ctrl).x) /
        (handleWheel powFn prev cx cy rl rt dy ctrl).scale
      = ((cx - rl) - prev.x) / prev.scale ∧
    ((cy - rt) - (handleWheel powFn prev cx cy rl rt dy ctrl).y) /
        (handleWheel powFn prev cx cy rl rt dy ctrl).scale
      = ((cy - rt) - prev.y) / prev.scale := by
  have hs : (0 : ℚ) <
      max 0.1 (min 2 (prev.scale * (if ctrl then powFn 0.995 dy else 1 - dy * 0.001))) :=
    lt_of_lt_of_le (by norm_num) (le_max_left _ _)
  simp only [handleWheel]
  constructor
  · rw [sub_sub_cancel]
    exact mul_div_cancel_right₀ _ (ne_of_gt hs)
  · rw [sub_sub_cancel]
    exact mul_div_cancel_right₀ _ (ne_of_gt hs)

/-- A sample `Math.pow` stand-in for witnesses. -/
def powMock : ℚ → ℚ → ℚ := fun a _ => a

/-- A sample previous transform for witnesses. -/
def t0 : Transform := ⟨1, 0, 0⟩

/-- Witness for claim C7, at a concrete transform and pointer position. -/
theorem C7_wheel_anchor_invariant_witness :
    ((10 - 0) - (handleWheel powMock t0 10 20 0 0 100 false).x) /
        (handleWheel powMock t0 10 20 0 0 100 false).scale
      = ((10 - 0) - t0.x) / t0.scale ∧
    ((20 - 0) - (handleWheel powMock t0 10 20 0 0 100 false).y) /
        (handleWheel powMock t0 10 20 0 0 100 false).scale
      = ((20 - 0) - t0.y) / t0.scale :=
  C7_wheel_anchor_invariant powMock t0 10 20 0 0 100 false
    (by norm_num [t0]) (by norm_num [t0])

/-! ## Placement engine (App.tsx, `findNonOverlappingPosition`, lines 301-344) -/

/-- Abstract interface to the foreign `Math.cos` / `Math.sin`; the spiral
only ever applies them to angle values, so they are carried as parameters
(the angle type `A` is abstract, instantiated by ℚ in concrete runs). -/
structure Trig (A : Type) where
  cos : A → ℚ
  sin : A → ℚ

/-- The collision test inside `findNonOverlappingPosition`: the candidate
rectangle (centered at `(px, py)`, footprint `w × h`) against each existing
node's rectangle padded by `PADDING = 80` on both axes; overlap is the
conjunction of the two axis tests, and the JS `for` loop breaks at the
first hit, which `List.any` mirrors. -/
def overlapsAny (nodes : List DiagramNode) (px py w h : ℚ) : Bool :=
  nodes.any fun node =>
    decide (|px - node.position.x| < (w + node.width) / 2 + 80) &&
    decide (|py - node.position.y| < (h + node.height) / 2 + 80)

/-- The `while` loop of `findNonOverlappingPosition`, with the remaining
attempt budget as fuel (`fuel = maxAttempts - attempts`).  The state is the
current probe `(px, py)` and the `angle`, `step`, `turn` variables, updated
exactly as in the source: on a collision the next probe is the ORIGINAL
start position displaced by `step` along `angle`, then the angle advances by
the turn angle, `turn` increments, and after every 7 turns the step grows
by 150. -/
def spiralAux {A : Type} [Add A] (tr : Trig A) (turnAngle : A) (nodes : List DiagramNode)
    (sx sy w h : ℚ) : ℕ → ℚ → ℚ → A → ℚ → ℕ → ℚ × ℚ
  | 0, px, py, _, _, _ => (px, py)
  | fuel + 1, px, py, angle, step, turn =>
    if overlapsAny nodes px py w h then
      spiralAux tr turnAngle nodes sx sy w h fuel
        (sx + step * tr.cos angle) (sy + step * tr.sin angle)
        (angle + turnAngle)
        (if 0 < turn + 1 ∧ (turn + 1) % 7 = 0 then step + 150 else step)
        (turn + 1)
    else (px, py)

/-- `findNonOverlappingPosition` (App.tsx lines 301-344): spiral search from
`(sx, sy)`, with initial angle `angle0` (`Math.random() * 2π` in the
source), initial step 250, the turn angle (π/3.5 in the source) and a
200-attempt budget. -/
def findNonOverlappingPosition {A : Type} [Add A] (tr : Trig A) (turnAngle : A)
    (nodes : List DiagramNode) (sx sy w h : ℚ) (angle0 : A) : ℚ × ℚ :=
  spiralAux tr turnAngle nodes sx sy w h 200 sx sy angle0 250 0

/-- Mirror of `spiralAux` recording whether the loop exits because a
non-overlapping position was found (`true`) rather than by exhausting the
attempt budget (`false`). -/
def spiralFound {A : Type} [Add A] (tr : Trig A) (turnAngle : A) (nodes : List DiagramNode)
    (sx sy w h : ℚ) : ℕ → ℚ → ℚ → A → ℚ → ℕ → Bool
  | 0, _, _, _, _, _ => false
  | fuel + 1, px, py, angle, step, turn =>
    if overlapsAny nodes px py w h then
      spiralFound tr turnAngle nodes sx sy w h fuel
        (sx + step * tr.cos angle) (sy + step * tr.sin angle)
        (angle + turnAngle)
        (if 0 < turn + 1 ∧ (turn + 1) % 7 = 0 then step + 150 else step)
        (turn + 1)
    else true

/-- Whether the spiral search succeeds before exhausting its 200-attempt
budget, for the same inputs as `findNonOverlappingPosition`. -/
def searchSucceeds {A : Type} [Add A] (tr : Trig A) (turnAngle : A)
    (nodes : List DiagramNode) (sx sy w h : ℚ) (angle0 : A) : Bool :=
  spiralFound tr turnAngle nodes sx sy w h 200 sx sy angle0 250 0

/-- Unfolding lemma: one loop iteration that hits a collision. -/
theorem spiralFound_succ_pos {A : Type} [Add A] (tr : Trig A) (τ : A)
    (nodes : List DiagramNode) (sx sy w h : ℚ) (fuel : ℕ) (px py : ℚ) (angle : A)
    (step : ℚ) (turn : ℕ) (hov : overlapsAny nodes px py w h = true) :
    spiralFound tr τ nodes sx sy w h (fuel + 1) px py angle step turn =
      spiralFound tr τ nodes sx sy w h fuel
        (sx + step * tr.cos angle) (sy + step * tr.sin angle) (angle + τ)
        (if 0 < turn + 1 ∧ (turn + 1) % 7 = 0 then step + 150 else step) (turn + 1) := by
  simp only [spiralFound, hov, if_true]

/-- Unfolding lemma: one loop iteration that finds the probe clear. -/
theorem spiralFound_succ_neg {A : Type} [Add A] (tr : Trig A) (τ : A)
    (nodes : List DiagramNode) (sx sy w h : ℚ) (fuel : ℕ) (px py : ℚ) (angle : A)
    (step : ℚ) (turn : ℕ) (hov : overlapsAny nodes px py w h = false) :
    spiralFound tr τ nodes sx sy w h (fuel + 1) px py angle step turn = true := by
  simp only [spiralFound, hov, Bool.false_eq_true, if_false]

/-- If the probe of the current iteration is clear, the spiral stops there. -/
theorem spiralAux_succ_neg {A : Type} [Add A] (tr : Trig A) (τ : A)
    (nodes : List DiagramNode) (sx sy w h : ℚ) (fuel : ℕ) (px py : ℚ) (angle : A)
    (step : ℚ) (turn : ℕ) (hov : overlapsAny nodes px py w h = false) :
    spiralAux tr τ nodes sx sy w h (fuel + 1) px py angle step turn = (px, py) := by
  simp only [spiralAux, hov, Bool.false_eq_true, if_false]

/-- Spiral iteration under a collision, for `spiralAux`. -/
theorem spiralAux_succ_pos {A : Type} [Add A] (tr : Trig A) (τ : A)
    (nodes : List DiagramNode) (sx sy w h : ℚ) (fuel : ℕ) (px py : ℚ) (angle : A)
    (step : ℚ) (turn : ℕ) (hov : overlapsAny nodes px py w h = true) :
    spiralAux tr τ nodes sx sy w h (fuel + 1) px py angle step turn =
      spiralAux tr τ nodes sx sy w h fuel
        (sx + step * tr.cos angle) (sy + step * tr.sin angle) (angle + τ)
        (if 0 < turn + 1 ∧ (turn + 1) % 7 = 0 then step + 150 else step) (turn + 1) := by
  simp only [spiralAux, hov, if_true]

/-- A spiral search whose desired position is already clear returns the
desired position unchanged. -/
theorem findNonOverlappingPosition_of_clear {A : Type} [Add A] (tr : Trig A) (τ : A)
    (nodes : List DiagramNode) (sx sy w h : ℚ) (angle0 : A)
    (hov : overlapsAny nodes sx sy w h = false) :
    findNonOverlappingPosition tr τ nodes sx sy w h angle0 = (sx, sy) := by
  rw [findNonOverlappingPosition, show (200 : ℕ) = 199 + 1 by norm_num]
  exact spiralAux_succ_neg tr τ nodes sx sy w h 199 sx sy angle0 250 0 hov

/-- When the mirror flag reports success, the position the loop stopped at
passes the collision test. -/
theorem spiralFound_sound {A : Type} [Add A] (tr : Trig A) (τ : A)
    (nodes : List DiagramNode) (sx sy w h : ℚ) :
    ∀ (fuel : ℕ) (px py : ℚ) (angle : A) (step : ℚ) (turn : ℕ),
      spiralFound tr τ nodes sx sy w h fuel px py angle step turn = true →
      overlapsAny nodes
        (spiralAux tr τ nodes sx sy w h fuel px py angle step turn).1
        (spiralAux tr τ nodes sx sy w h fuel px py angle step turn).2 w h = false := by
  intro fuel
  induction fuel with
  | zero =>
    intro px py angle step turn hf
    simp [spiralFound] at hf
  | succ k ih =>
    intro px py angle step turn hf
    by_cases hov : overlapsAny nodes px py w h
    · rw [spiralFound_succ_pos tr τ nodes sx sy w h k px py angle step turn hov] at hf
      rw [spiralAux_succ_pos tr τ nodes sx sy w h k px py angle step turn hov]
      exact ih _ _ _ _ _ hf
    · have hov2 : overlapsAny nodes px py w h = false := Bool.eq_false_iff.mpr hov
      rw [spiralAux_succ_neg tr τ nodes sx sy w h k px py angle step turn hov2]
      exact hov2

/-- Claim C1: whenever the spiral search succeeds before exhausting its
200-attempt budget, the returned position's rectangle does not overlap any
existing node's rectangle expanded by 80 world units of padding on both
axes; overlap is the conjunction of the X-axis and Y-axis center-distance
tests against the padded half-extent sums. -/
theorem C1_nonoverlap_on_success {A : Type} [Add A] (tr : Trig A) (τ : A)
    (nodes : List DiagramNode) (sx sy w h : ℚ) (angle0 : A)
    (hsucc : searchSucceeds tr τ nodes sx sy w h angle0 = true) :
    ∀ node ∈ nodes,
      ¬ (|(findNonOverlappingPosition tr τ nodes sx sy w h angle0).1 - node.position.x| <
            (w + node.width) / 2 + 80 ∧
         |(findNonOverlappingPosition tr τ nodes sx sy w h angle0).2 - node.position.y| <
            (h + node.height) / 2 + 80) := by
  intro node hmem hcontra
  have h0 := spiralFound_sound tr τ nodes sx sy w h 200 sx sy angle0 250 0 hsucc
  rw [← findNonOverlappingPosition] at h0
  simp only [overlapsAny, List.any_eq_false, Bool.and_eq_true, decide_eq_true_eq] at h0
  exact h0 node hmem ⟨hcontra.1, hcontra.2⟩

/-- Mock trig for concrete spiral runs: every probe moves along +x. -/
def trMock : Trig ℚ := ⟨fun _ => 1, fun _ => 0⟩

/-- A 100×100 node at the origin, used for the placement witnesses. -/
def w1Node : DiagramNode :=
  { id := "w1", type := .user, data := { text := "w" }
    position := ⟨0, 0⟩, width := 100, height := 100 }

/-- Witness for claim C1: searching from the center of `w1Node` collides
once, succeeds at the probe (250, 0), and the result indeed clears the
padded rectangle of `w1Node`. -/
theorem C1_nonoverlap_on_success_witness :
    ¬ (|(findNonOverlappingPosition trMock 1 [w1Node] 0 0 100 100 0).1 - w1Node.position.x| <
          (100 + w1Node.width) / 2 + 80 ∧
       |(findNonOverlappingPosition trMock 1 [w1Node] 0 0 100 100 0).2 - w1Node.position.y| <
          (100 + w1Node.height) / 2 + 80) := by
  refine C1_nonoverlap_on_success trMock 1 [w1Node] 0 0 100 100 0 ?_ w1Node (by simp)
  rw [searchSucceeds, show (200 : ℕ) = 199 + 1 by norm_num]
  rw [spiralFound_succ_pos trMock 1 [w1Node] 0 0 100 100 199 0 0 0 250 0
        (by norm_num [overlapsAny, w1Node])]
  norm_num [trMock]
  rw [show (199 : ℕ) = 198 + 1 by norm_num]
  exact spiralFound_succ_neg trMock 1 [w1Node] 0 0 100 100 198 250 0 1 250 1
    (by norm_num [overlapsAny, w1Node])

/-- The angle of the n-th collision probe: the initial random angle advanced
n times by the turn angle. -/
def angleAt {A : Type} [Add A] (a0 τ : A) : ℕ → A
  | 0 => a0
  | n + 1 => angleAt a0 τ n + τ

/-- The step radius of the n-th collision probe: 250 initially, increased by
150 after every 7 turns. -/
def stepAt (n : ℕ) : ℚ := 250 + 150 * ((n / 7 : ℕ) : ℚ)

/-- The n-th probe position of the spiral: probe 0 is the desired position
itself; probe n+1 displaces the ORIGINAL desired position by `stepAt n`
along the direction of `angleAt a0 τ n` (no drift accumulates). -/
def probePoint {A : Type} [Add A] (tr : Trig A) (sx sy : ℚ) (a0 τ : A) : ℕ → ℚ × ℚ
  | 0 => (sx, sy)
  | n + 1 =>
    (sx + stepAt n * tr.cos (angleAt a0 τ n), sy + stepAt n * tr.sin (angleAt a0 τ n))

/-- The step update of the loop agrees with the closed form `stepAt`. -/
theorem stepAt_succ (n : ℕ) :
    (if 0 < n + 1 ∧ (n + 1) % 7 = 0 then stepAt n + 150 else stepAt n) = stepAt (n + 1) := by
  have hdiv : (n + 1) / 7 = n / 7 + if 7 ∣ n + 1 then 1 else 0 := Nat.succ_div n 7
  by_cases h7 : (n + 1) % 7 = 0
  · have hdvd : 7 ∣ n + 1 := Nat.dvd_iff_mod_eq_zero.mpr h7
    rw [if_pos ⟨Nat.succ_pos n, h7⟩]
    simp only [stepAt, hdiv, if_pos hdvd]
    push_cast
    ring
  · have hdvd : ¬ 7 ∣ n + 1 := fun hd => h7 (Nat.dvd_iff_mod_eq_zero.mp hd)
    rw [if_neg (fun hc => h7 hc.2)]
    simp only [stepAt, hdiv, if_neg hdvd]
    push_cast
    ring

/-- Every spiral run follows the probe sequence: starting the loop at probe
n with matching angle/step/turn state, it stops at some probe m with at most
`fuel` further collisions. -/
theorem spiralAux_probe {A : Type} [Add A] (tr : Trig A) (τ : A)
    (nodes : List DiagramNode) (sx sy w h : ℚ) (a0 : A) :
    ∀ (fuel n : ℕ),
      ∃ m, m ≤ n + fuel ∧
        spiralAux tr τ nodes sx sy w h fuel
            (probePoint tr sx sy a0 τ n).1 (probePoint tr sx sy a0 τ n).2
            (angleAt a0 τ n) (stepAt n) n
          = probePoint tr sx sy a0 τ m := by
  intro fuel
  induction fuel with
  | zero => intro n; exact ⟨n, le_refl _, rfl⟩
  | succ k ih =>
    intro n
    by_cases hov : overlapsAny nodes (probePoint tr sx sy a0 τ n).1
        (probePoint tr sx sy a0 τ n).2 w h
    · rw [spiralAux_succ_pos tr τ nodes sx sy w h k _ _ _ _ n hov, stepAt_succ n]
      obtain ⟨m, hm, heq⟩ := ih (n + 1)
      exact ⟨m, by omega, heq⟩
    · have hov2 := Bool.eq_false_iff.mpr hov
      rw [spiralAux_succ_neg tr τ nodes sx sy w h k _ _ _ _ n hov2]
      exact ⟨n, by omega, rfl⟩

/-- Claim C9: `findNonOverlappingPosition` always returns a position after
at most 200 probes — the result is the n-th probe of the spiral for some
n ≤ 200, where every probe is the ORIGINAL desired position displaced by
`stepAt` (growing by 150 after every 7 turns) along `angleAt` (advancing by
the turn angle per collision); no drift accumulates from earlier probes,
and the last probe is returned even if it still overlaps. -/
theorem C9_bounded_probe_sequence {A : Type} [Add A] (tr : Trig A) (τ : A)
    (nodes : List DiagramNode) (sx sy w h : ℚ) (a0 : A) :
    ∃ n ≤ 200,
      findNonOverlappingPosition tr τ nodes sx sy w h a0 = probePoint tr sx sy a0 τ n := by
  obtain ⟨m, hm, heq⟩ := spiralAux_probe tr τ nodes sx sy w h a0 200 0
  have h250 : stepAt 0 = 250 := by norm_num [stepAt]
  refine ⟨m, by omega, ?_⟩
  rw [findNonOverlappingPosition, ← h250]
  exact heq

/-! ## Focus set (DiagramView.tsx, `activeNodeIds`, lines 73-99) -/

/-- The `nodeMap` lookup of DiagramView.tsx: a JS `Map` built from the node
list keeps the LAST entry per id, so lookup scans the reversed list. -/
def nodeMapGet (nodes : List DiagramNode) (i : String) : Option DiagramNode :=
  nodes.reverse.find? (fun n => n.id == i)

/-- Membership in the first tier (`primaryActive` of `activeNodeIds`):
the focused id plus every id sharing an edge with it in either direction. -/
def primaryActiveMem (focusedNodeId : String) (edges : List Edge) (i : String) : Bool :=
  i == focusedNodeId ||
    edges.any fun e =>
      (e.source == focusedNodeId && e.target == i) ||
      (e.target == focusedNodeId && e.source == i)

/-- The second-tier kind test of `activeNodeIds`: the node with id `i`
exists in the map and has kind source or code. -/
def isSourceOrCodeAt (nodes : List DiagramNode) (i : String) : Bool :=
  match nodeMapGet nodes i with
  | some other => decide (other.type = .source) || decide (other.type = .code)
  | none => false

/-- Membership in the focus set (`finalActiveIds` of `activeNodeIds`): the
first tier, plus — for every first-tier member — the target of any edge
leaving it whose node exists and has kind source or code.  The
`!(e.target == "")` conjunct is the JS truthiness guard `if (otherNodeId)`:
an empty-string target id is falsy and the code skips the hop. -/
def activeNodeIdsMem (focusedNodeId : String) (nodes : List DiagramNode) (edges : List Edge)
    (i : String) : Bool :=
  primaryActiveMem focusedNodeId edges i ||
    edges.any fun e =>
      primaryActiveMem focusedNodeId edges e.source && !(e.target == "") &&
        e.target == i && isSourceOrCodeAt nodes e.target

/-- Unfolds the kind test into an existence statement about the map. -/
theorem isSourceOrCodeAt_eq_true_iff (nodes : List DiagramNode) (i : String) :
    isSourceOrCodeAt nodes i = true ↔
      ∃ n, nodeMapGet nodes i = some n ∧ (n.type = .source ∨ n.type = .code) := by
  rw [isSourceOrCodeAt]
  cases h : nodeMapGet nodes i with
  | none => simp
  | some other => simp [h]

/-- Example graph for the two-hop focus scenario: F —▸ B —▸ C (source) and
B —▸ D (user). -/
def exNodes : List DiagramNode :=
  [{ id := "F", type := .user, data := { text := "f" }, position := ⟨0, 0⟩,
     width := 1, height := 1 },
   { id := "B", type := .ai, data := { text := "b" }, position := ⟨0, 0⟩,
     width := 1, height := 1 },
   { id := "C", type := .source, data := { text := "c" }, position := ⟨0, 0⟩,
     width := 1, height := 1 },
   { id := "D", type := .user, data := { text := "d" }, position := ⟨0, 0⟩,
     width := 1, height := 1 }]

/-- Edges of the two-hop focus scenario. -/
def exEdges : List Edge :=
  [⟨"e1", "F", "B"⟩, ⟨"e2", "B", "C"⟩, ⟨"e3", "B", "D"⟩]

/-- Graph for the empty-id corner: F —▸ B, and B —▸ "" where the node with
the empty id has kind source. -/
def c5Nodes : List DiagramNode :=
  [{ id := "F", type := .user, data := { text := "f" }, position := ⟨0, 0⟩,
     width := 1, height := 1 },
   { id := "B", type := .ai, data := { text := "b" }, position := ⟨0, 0⟩,
     width := 1, height := 1 },
   { id := "", type := .source, data := { text := "s" }, position := ⟨0, 0⟩,
     width := 1, height := 1 }]

/-- Edges of the empty-id corner graph. -/
def c5Edges : List Edge := [⟨"e1", "F", "B"⟩, ⟨"e2", "B", ""⟩]

/-- Claim C5 counterexample: focusing F, the id B is in the first tier, the
existing node of kind source with the empty id is the target of the edge
B —▸ "", so the claim as stated requires it in the focus set — but the
computed set excludes it, because the JS truthiness guard
`if (otherNodeId)` in `activeNodeIds` treats the empty-string id as falsy
and skips the hop. -/
theorem C5_claim_counterexample :
    primaryActiveMem "F" c5Edges "B" = true ∧
    (⟨"e2", "B", ""⟩ : Edge) ∈ c5Edges ∧
    isSourceOrCodeAt c5Nodes "" = true ∧
    activeNodeIdsMem "F" c5Nodes c5Edges "" = false := by
  decide

/-- Claim C5 (amended): the focus set consists of the focused id F itself,
the ids sharing an edge with F in either direction, and — for every member
M of that first tier — every existing node of kind source or code with a
NON-EMPTY id that is the target of an edge whose source is M (the JS
truthiness guard `if (otherNodeId)` skips an empty-string target id); in
the concrete two-hop scenario, focusing F keeps the source node C two hops
away in the set, while the user node D two hops away is excluded. -/
theorem C5_focus_two_tier :
    (∀ (f : String) (nodes : List DiagramNode) (edges : List Edge) (i : String),
      activeNodeIdsMem f nodes edges i = true ↔
        (i = f ∨
         (∃ e ∈ edges, (e.source = f ∧ e.target = i) ∨ (e.target = f ∧ e.source = i)) ∨
         (∃ e ∈ edges,
            (e.source = f ∨
             ∃ d ∈ edges,
               (d.source = f ∧ d.target = e.source) ∨ (d.target = f ∧ d.source = e.source)) ∧
            e.target ≠ "" ∧
            e.target = i ∧
            (∃ n, nodeMapGet nodes e.target = some n ∧
               (n.type = .source ∨ n.type = .code))))) ∧
    activeNodeIdsMem "F" exNodes exEdges "C" = true ∧
    activeNodeIdsMem "F" exNodes exEdges "D" = false := by
  refine ⟨fun f nodes edges i => ?_, by decide, by decide⟩
  simp only [activeNodeIdsMem, primaryActiveMem, isSourceOrCodeAt_eq_true_iff,
    List.any_eq_true, Bool.or_eq_true, Bool.and_eq_true, beq_iff_eq,
    Bool.not_eq_true', beq_eq_false_iff_ne, ne_eq, and_assoc, or_assoc]

/-! ## Descendant traversal (App.tsx, `getDescendants`, lines 362-378) -/

/-- The inner `edges.forEach` of one BFS iteration of `getDescendants`: for
each edge leaving `currentId` whose target is unvisited, the target is
appended to the descendants, the visited set and the queue. -/
def processEdges (currentId : String) :
    List Edge → List String → List String → List String →
      List String × List String × List String
  | [], q, d, v => (q, d, v)
  | e :: rest, q, d, v =>
    if e.source == currentId && !(v.contains e.target) then
      processEdges currentId rest (q ++ [e.target]) (d ++ [e.target]) (v ++ [e.target])
    else
      processEdges currentId rest q d v

/-- The `while (queue.length > 0)` loop of `getDescendants`, with an
explicit fuel; each iteration pops the queue head (`queue.shift()`) and
expands it over the full edge list. -/
def bfsState (edges : List Edge) : ℕ → List String → List String → List String →
    List String × List String
  | 0, _, d, v => (d, v)
  | _ + 1, [], d, v => (d, v)
  | fuel + 1, c :: rest, d, v =>
    let s := processEdges c edges rest d v
    bfsState edges fuel s.1 s.2.1 s.2.2

/-- `getDescendants` (App.tsx lines 362-378); the `nodes` parameter is
unused in the source as well.  Fuel `edges.length + 2` always suffices for
the queue to empty: each enqueue after the start consumes an edge whose
target was unvisited, so the loop pops at most `edges.length + 1` ids
(`C10_getDescendants_total` certifies fuel-independence). -/
def getDescendants (startNodeId : String) (_nodes : List DiagramNode) (edges : List Edge) :
    List String :=
  (bfsState edges (edges.length + 2) [startNodeId] [] [startNodeId]).1

/-- Reachability along edges in the source→target direction (reflexive),
the specification-side meaning of "descendant of" (plus the node itself). -/
inductive Reaches (edges : List Edge) : String → String → Prop
  | refl (a : String) : Reaches edges a a
  | tail {a b c : String} (hab : Reaches edges a b) (e : Edge) (he : e ∈ edges)
      (hsrc : e.source = b) (htgt : e.target = c) : Reaches edges a c

/-- Anything reachable from inside an edge-closed id set stays inside it. -/
theorem reaches_mem_of_closed (edges : List Edge) (S : List String)
    (hcl : ∀ u ∈ S, ∀ e ∈ edges, e.source = u → e.target ∈ S)
    {a b : String} (hr : Reaches edges a b) (ha : a ∈ S) : b ∈ S := by
  induction hr with
  | refl => exact ha
  | tail hab e he hsrc htgt ih => exact htgt ▸ hcl _ ih e he hsrc

/-- A non-start reachable id is the target of some edge. -/
theorem reaches_target_of_ne (edges : List Edge) {a b : String}
    (hr : Reaches edges a b) (hne : b ≠ a) : ∃ e ∈ edges, e.target = b := by
  cases hr with
  | refl => exact absurd rfl hne
  | tail hab e he hsrc htgt => exact ⟨e, he, htgt⟩

/-- `processEdges` appends one common suffix to queue, descendants and
visited. -/
theorem processEdges_append (c : String) :
    ∀ (es : List Edge) (q d v : List String),
      ∃ ts, processEdges c es q d v = (q ++ ts, d ++ ts, v ++ ts) := by
  intro es
  induction es with
  | nil => intro q d v; exact ⟨[], by simp [processEdges]⟩
  | cons e rest ih =>
    intro q d v
    rw [processEdges]
    by_cases hc : (e.source == c && !(v.contains e.target)) = true
    · rw [if_pos hc]
      obtain ⟨ts, hts⟩ := ih (q ++ [e.target]) (d ++ [e.target]) (v ++ [e.target])
      exact ⟨e.target :: ts, by simpa [List.append_assoc] using hts⟩
    · rw [if_neg hc]
      exact ih q d v

/-- Visited only grows across `processEdges`. -/
theorem processEdges_visited_mono (c : String) (es : List Edge) (q d v : List String) :
    ∀ x ∈ v, x ∈ (processEdges c es q d v).2.2 := by
  obtain ⟨ts, hts⟩ := processEdges_append c es q d v
  intro x hx
  rw [hts]
  exact List.mem_append_left _ hx

/-- After `processEdges`, every edge leaving the processed id has its
target visited. -/
theorem processEdges_closes (c : String) :
    ∀ (es : List Edge) (q d v : List String),
      ∀ e ∈ es, e.source = c → e.target ∈ (processEdges c es q d v).2.2 := by
  intro es
  induction es with
  | nil => intro q d v e he; cases he
  | cons e0 rest ih =>
    intro q d v e he hsrc
    rw [processEdges]
    rcases List.mem_cons.mp he with rfl | hrest
    · by_cases hc : (e.source == c && !(v.contains e.target)) = true
      · rw [if_pos hc]
        exact processEdges_visited_mono c rest _ _ _ e.target (by simp)
      · rw [if_neg hc]
        have hv : e.target ∈ v := by
          by_contra hnv
          exact hc (by simp [hsrc, hnv])
        exact processEdges_visited_mono c rest q d v e.target hv
    · by_cases hc : (e0.source == c && !(v.contains e0.target)) = true
      · rw [if_pos hc]; exact ih _ _ _ e hrest hsrc
      · rw [if_neg hc]; exact ih q d v e hrest hsrc

/-- Everything visited after `processEdges` was visited before or is the
target of one of the processed edges leaving the current id. -/
theorem processEdges_new_sound (c : String) :
    ∀ (es : List Edge) (q d v : List String),
      ∀ x ∈ (processEdges c es q d v).2.2,
        x ∈ v ∨ ∃ e ∈ es, e.source = c ∧ e.target = x := by
  intro es
  induction es with
  | nil => intro q d v x hx; exact Or.inl hx
  | cons e0 rest ih =>
    intro q d v x hx
    rw [processEdges] at hx
    by_cases hc : (e0.source == c && !(v.contains e0.target)) = true
    · rw [if_pos hc] at hx
      rcases ih _ _ _ x hx with hv | ⟨e, he, hsrc, htgt⟩
      · rcases List.mem_append.mp hv with hv | hv
        · exact Or.inl hv
        · have : x = e0.target := by simpa using hv
          exact Or.inr ⟨e0, by simp, beq_iff_eq.mp (Bool.and_eq_true _ _ |>.mp hc).1, this.symm⟩
      · exact Or.inr ⟨e, by simp [he], hsrc, htgt⟩
    · rw [if_neg hc] at hx
      rcases ih q d v x hx with hv | ⟨e, he, hsrc, htgt⟩
      · exact Or.inl hv
      · exact Or.inr ⟨e, by simp [he], hsrc, htgt⟩

/-- An id already visited and not yet recorded as a descendant stays off
the descendant list through `processEdges`. -/
theorem processEdges_not_desc (c : String) :
    ∀ (es : List Edge) (q d v : List String) (x : String),
      x ∈ v → x ∉ d → x ∉ (processEdges c es q d v).2.1 := by
  intro es
  induction es with
  | nil => intro q d v x _ hxd; simpa [processEdges] using hxd
  | cons e0 rest ih =>
    intro q d v x hxv hxd
    rw [processEdges]
    by_cases hc : (e0.source == c && !(v.contains e0.target)) = true
    · rw [if_pos hc]
      have hne : e0.target ≠ x := by
        intro h
        have h2 := ((Bool.and_eq_true _ _).mp hc).2
        rw [h] at h2
        have h3 : x ∉ v := by simpa using h2
        exact h3 hxv
      refine ih _ _ _ x (List.mem_append_left _ hxv) ?_
      intro hmem
      rcases List.mem_append.mp hmem with hmem | hmem
      · exact hxd hmem
      · have h4 : x = e0.target := by simpa using hmem
        exact hne h4.symm
    · rw [if_neg hc]
      exact ih q d v x hxv hxd

/-- Dropping an element failing the filter strictly shortens the list. -/
theorem length_filter_lt_of_mem_not {α : Type} (l : List α) (p : α → Bool) (x : α)
    (hx : x ∈ l) (hpx : p x = false) : (l.filter p).length < l.length := by
  induction l with
  | nil => cases hx
  | cons a rest ih =>
    rcases List.mem_cons.mp hx with rfl | hmem
    · rw [List.filter_cons, hpx]
      exact Nat.lt_succ_of_le (List.length_filter_le p rest)
    · rw [List.filter_cons]
      by_cases hpa : p a = true
      · rw [if_pos hpa]
        exact Nat.succ_lt_succ (ih hmem)
      · rw [if_neg hpa]
        exact Nat.lt_succ_of_lt (ih hmem)

/-- Number of edges whose target is still unvisited: the BFS potential. -/
def unvis (edges : List Edge) (v : List String) : ℕ :=
  (edges.filter (fun e => !(v.contains e.target))).length

/-- Visiting the target of an unvisited edge strictly decreases the
potential. -/
theorem unvis_insert (edges : List Edge) (v : List String) (e : Edge) (he : e ∈ edges)
    (hnv : e.target ∉ v) : unvis edges (v ++ [e.target]) + 1 ≤ unvis edges v := by
  have hpw : (fun e2 : Edge => !((v ++ [e.target]).contains e2.target)) =
      (fun e2 : Edge => (!(e2.target == e.target)) && (!(v.contains e2.target))) := by
    funext e2
    by_cases h1 : e2.target ∈ v <;> by_cases h2 : e2.target = e.target <;> simp [h1, h2]
  have hmem2 : e ∈ edges.filter (fun e2 => !(v.contains e2.target)) := by
    rw [List.mem_filter]
    exact ⟨he, by simpa using hnv⟩
  rw [unvis, unvis, hpw, ← List.filter_filter]
  exact Nat.succ_le_of_lt
    (length_filter_lt_of_mem_not _ _ e hmem2 (by simp))

/-- One BFS expansion does not increase the potential `|queue| + unvis`. -/
theorem processEdges_measure (edges : List Edge) (c : String) :
    ∀ (es : List Edge), (∀ e ∈ es, e ∈ edges) → ∀ (q d v : List String),
      (processEdges c es q d v).1.length + unvis edges (processEdges c es q d v).2.2 ≤
        q.length + unvis edges v := by
  intro es
  induction es with
  | nil => intro _ q d v; simp [processEdges]
  | cons e0 rest ih =>
    intro hsub q d v
    rw [processEdges]
    by_cases hc : (e0.source == c && !(v.contains e0.target)) = true
    · rw [if_pos hc]
      have h1 := ih (fun e he => hsub e (List.mem_cons_of_mem _ he))
        (q ++ [e0.target]) (d ++ [e0.target]) (v ++ [e0.target])
      have hnv : e0.target ∉ v := by
        have h2 := ((Bool.and_eq_true _ _).mp hc).2
        simpa using h2
      have h3 := unvis_insert edges v e0 (hsub e0 (by simp)) hnv
      have h4 : (q ++ [e0.target]).length = q.length + 1 := by simp
      omega
    · rw [if_neg hc]
      exact ih (fun e he => hsub e (List.mem_cons_of_mem _ he)) q d v

/-- Across the whole BFS loop, descendants and visited share one appended
suffix (so visited = start :: descendants throughout). -/
theorem bfsState_append (edges : List Edge) :
    ∀ (fuel : ℕ) (q d v : List String),
      ∃ ts, bfsState edges fuel q d v = (d ++ ts, v ++ ts) := by
  intro fuel
  induction fuel with
  | zero => intro q d v; exact ⟨[], by simp [bfsState]⟩
  | succ k ih =>
    intro q d v
    match q with
    | [] => exact ⟨[], by simp [bfsState]⟩
    | c :: rest =>
      obtain ⟨ts0, hts0⟩ := processEdges_append c edges rest d v
      obtain ⟨ts1, hts1⟩ :=
        ih (rest ++ ts0) (d ++ ts0) (v ++ ts0)
      refine ⟨ts0 ++ ts1, ?_⟩
      show bfsState edges k (processEdges c edges rest d v).1
          (processEdges c edges rest d v).2.1 (processEdges c edges rest d v).2.2 = _
      rw [hts0]
      rw [show ((rest ++ ts0, d ++ ts0, v ++ ts0) :
            List String × List String × List String).1 = rest ++ ts0 from rfl]
      rw [show ((rest ++ ts0, d ++ ts0, v ++ ts0) :
            List String × List String × List String).2.1 = d ++ ts0 from rfl]
      rw [show ((rest ++ ts0, d ++ ts0, v ++ ts0) :
            List String × List String × List String).2.2 = v ++ ts0 from rfl]
      rw [hts1]
      simp [List.append_assoc]

/-- Everything the BFS visits is reachable from the start id. -/
theorem bfsState_sound (edges : List Edge) (s : String) :
    ∀ (fuel : ℕ) (q d v : List String),
      (∀ u ∈ q, u ∈ v) → (∀ u ∈ v, Reaches edges s u) →
      ∀ x ∈ (bfsState edges fuel q d v).2, Reaches edges s x := by
  intro fuel
  induction fuel with
  | zero => intro q d v _ hv x hx; exact hv x hx
  | succ k ih =>
    intro q d v hq hv x hx
    match q with
    | [] => exact hv x hx
    | c :: rest =>
      obtain ⟨ts, hts⟩ := processEdges_append c edges rest d v
      refine ih (processEdges c edges rest d v).1 (processEdges c edges rest d v).2.1
        (processEdges c edges rest d v).2.2 ?_ ?_ x hx
      · intro u hu
        rw [hts] at hu ⊢
        rcases List.mem_append.mp hu with hur | huts
        · exact List.mem_append_left _ (hq u (List.mem_cons_of_mem c hur))
        · exact List.mem_append_right _ huts
      · intro u hu
        rcases processEdges_new_sound c edges rest d v u hu with huv | ⟨e, he, hsrc, htgt⟩
        · exact hv u huv
        · exact Reaches.tail (hv c (hq c (by simp))) e he hsrc htgt

/-- With fuel exceeding the potential, the visited set of the finished BFS
is closed under outgoing edges. -/
theorem bfsState_closed (edges : List Edge) :
    ∀ (fuel : ℕ) (q d v : List String),
      q.length + unvis edges v < fuel →
      (∀ u ∈ v, u ∈ q ∨ ∀ e ∈ edges, e.source = u → e.target ∈ v) →
      ∀ u ∈ (bfsState edges fuel q d v).2, ∀ e ∈ edges, e.source = u →
        e.target ∈ (bfsState edges fuel q d v).2 := by
  intro fuel
  induction fuel with
  | zero => intro q d v hm; exact absurd hm (Nat.not_lt_zero _)
  | succ k ih =>
    intro q d v hm hinv
    match q with
    | [] =>
      intro u hu e he hsrc
      rcases hinv u hu with h | h
      · exact absurd h (List.not_mem_nil u)
      · exact h e he hsrc
    | c :: rest =>
      obtain ⟨ts, hts⟩ := processEdges_append c edges rest d v
      refine ih (processEdges c edges rest d v).1 (processEdges c edges rest d v).2.1
        (processEdges c edges rest d v).2.2 ?_ ?_
      · have h1 := processEdges_measure edges c edges (fun _ he => he) rest d v
        have h2 : (c :: rest).length = rest.length + 1 := by simp
        omega
      · intro u hu
        rw [hts] at hu
        rcases List.mem_append.mp hu with huv | huts
        · rcases hinv u huv with hq | hcl
          · rcases List.mem_cons.mp hq with rfl | hr
            · right
              intro e he hsrc
              exact processEdges_closes u edges rest d v e he hsrc
            · left
              rw [hts]
              exact List.mem_append_left _ hr
          · right
            intro e he hsrc
            rw [hts]
            exact List.mem_append_left _ (hcl e he hsrc)
        · left
          rw [hts]
          exact List.mem_append_right _ huts

/-- An id visited from the start never enters the descendant list. -/
theorem bfsState_not_desc (edges : List Edge) :
    ∀ (fuel : ℕ) (q d v : List String) (x : String), x ∈ v → x ∉ d →
      x ∉ (bfsState edges fuel q d v).1 := by
  intro fuel
  induction fuel with
  | zero => intro q d v x _ hxd; exact hxd
  | succ k ih =>
    intro q d v x hxv hxd
    match q with
    | [] => exact hxd
    | c :: rest =>
      exact ih (processEdges c edges rest d v).1 (processEdges c edges rest d v).2.1
        (processEdges c edges rest d v).2.2 x
        (processEdges_visited_mono c edges rest d v x hxv)
        (processEdges_not_desc c edges rest d v x hxv hxd)

/-- Enough fuel makes the BFS result fuel-independent: the queue empties
before any fuel beyond the potential is consumed. -/
theorem bfsState_fuel_stable (edges : List Edge) :
    ∀ (fuel fuel2 : ℕ) (q d v : List String),
      q.length + unvis edges v < fuel → fuel ≤ fuel2 →
      bfsState edges fuel2 q d v = bfsState edges fuel q d v := by
  intro fuel
  induction fuel with
  | zero => intro fuel2 q d v hm _; exact absurd hm (Nat.not_lt_zero _)
  | succ k ih =>
    intro fuel2 q d v hm hle
    match fuel2, q with
    | 0, _ => exact absurd hle (by omega)
    | f2 + 1, [] => rfl
    | f2 + 1, c :: rest =>
      show bfsState edges f2 (processEdges c edges rest d v).1
          (processEdges c edges rest d v).2.1 (processEdges c edges rest d v).2.2 =
        bfsState edges k (processEdges c edges rest d v).1
          (processEdges c edges rest d v).2.1 (processEdges c edges rest d v).2.2
      have h1 := processEdges_measure edges c edges (fun _ he => he) rest d v
      have h2 : (c :: rest).length = rest.length + 1 := by simp
      exact ih f2 _ _ _ (by omega) (by omega)

/-- The initial BFS potential is below the fuel used by `getDescendants`. -/
theorem getDescendants_fuel_ok (s : String) (edges : List Edge) :
    ([s] : List String).length + unvis edges [s] < edges.length + 2 := by
  have hle := List.length_filter_le (fun e : Edge => !([s].contains e.target)) edges
  have h1 : ([s] : List String).length = 1 := rfl
  rw [h1, unvis]
  omega

/-- BFS correctness: the descendant list of `getDescendants` holds exactly
the ids reachable from the start (other than the start itself). -/
theorem getDescendants_mem (s : String) (nodes : List DiagramNode) (edges : List Edge)
    (u : String) :
    u ∈ getDescendants s nodes edges ↔ (Reaches edges s u ∧ u ≠ s) := by
  obtain ⟨ts, hts⟩ := bfsState_append edges (edges.length + 2) [s] [] [s]
  constructor
  · intro hu
    constructor
    · refine bfsState_sound edges s (edges.length + 2) [s] [] [s] (fun u hu2 => hu2)
        ?_ u ?_
      · intro x hx
        have hxs : x = s := by simpa using hx
        subst hxs
        exact Reaches.refl x
      · rw [getDescendants] at hu
        rw [hts] at hu ⊢
        simp only [List.nil_append] at hu
        exact List.mem_append_right _ hu
    · intro heq
      have hnot := bfsState_not_desc edges (edges.length + 2) [s] [] [s] s
        (by simp) (List.not_mem_nil s)
      rw [getDescendants] at hu
      exact hnot (heq ▸ hu)
  · rintro ⟨hr, hne⟩
    have hclosed := bfsState_closed edges (edges.length + 2) [s] [] [s]
      (getDescendants_fuel_ok s edges)
      (fun u hu => Or.inl (by simpa using hu))
    have hsv : s ∈ (bfsState edges (edges.length + 2) [s] [] [s]).2 := by
      rw [hts]
      exact List.mem_append_left _ (by simp)
    have huv := reaches_mem_of_closed edges _ hclosed hr hsv
    rw [hts] at huv
    rcases List.mem_append.mp huv with h1 | h2
    · exact absurd (by simpa using h1) hne
    · rw [getDescendants, hts]
      simpa using h2

/-- Claim C10: `getDescendants` terminates on every finite node and edge
collection, cycles included — the fuelled BFS loop gives the same result
for any fuel beyond the `edges.length + 2` bound, because the visited set
lets each id be enqueued at most once — and the returned descendant set
never contains the start id, even when a cycle makes it reachable from
itself. -/
theorem C10_getDescendants_total (s : String) (nodes : List DiagramNode)
    (edges : List Edge) (extra : ℕ) :
    (bfsState edges (edges.length + 2 + extra) [s] [] [s]).1 =
        getDescendants s nodes edges ∧
      s ∉ getDescendants s nodes edges := by
  constructor
  · rw [getDescendants]
    rw [bfsState_fuel_stable edges (edges.length + 2) (edges.length + 2 + extra) [s] [] [s]
      (getDescendants_fuel_ok s edges) (by omega)]
  · intro hs
    exact ((getDescendants_mem s nodes edges s).mp hs).2 rfl

/-- `handleRegenerate` (App.tsx lines 455-476), after the user confirms the
dialog: the state mutation removing the node and its descendant subtree
(the subsequent `handleSend` replay is a separate turn).  No inbound edge,
a missing parent node, or a parent of kind other than user leaves the
state unchanged. -/
def handleRegenerate (nodeId : String) (nodes : List DiagramNode) (edges : List Edge) :
    List DiagramNode × List Edge :=
  match edges.find? (fun e => e.target == nodeId) with
  | none => (nodes, edges)
  | some parentEdge =>
    match nodes.find? (fun n => n.id == parentEdge.source) with
    | none => (nodes, edges)
    | some parentNode =>
      if parentNode.type = .user then
        let descendants := nodeId :: getDescendants nodeId nodes edges
        (nodes.filter (fun n => !(descendants.contains n.id)),
         edges.filter (fun e => !(descendants.contains e.source) &&
           !(descendants.contains e.target)))
      else (nodes, edges)

/-- The removal set (`descendants` with the node itself added) is exactly
the set of ids reachable from the regenerated node. -/
theorem mem_removal_iff (nodeId : String) (nodes : List DiagramNode) (edges : List Edge)
    (x : String) :
    x ∈ (nodeId :: getDescendants nodeId nodes edges) ↔ Reaches edges nodeId x := by
  rw [List.mem_cons, getDescendants_mem]
  constructor
  · rintro (rfl | ⟨hr, _⟩)
    · exact Reaches.refl _
    · exact hr
  · intro hr
    by_cases hx : x = nodeId
    · exact Or.inl hx
    · exact Or.inr ⟨hr, hx⟩

/-- Claim C3: when the regenerated node has an inbound edge whose source
node exists and is of kind user, the operation keeps exactly the nodes NOT
reachable from it (following edges source→target; the node itself is
reachable by reflexivity and removed), and keeps exactly the edges whose
two endpoints both survive; in the remaining cases (no inbound edge,
missing parent, parent not of kind user) it is a no-op. -/
theorem C3_regenerate_subtree (nodeId : String) (nodes : List DiagramNode)
    (edges : List Edge) :
    (∀ pe, edges.find? (fun e => e.target == nodeId) = some pe →
      ∀ pn, nodes.find? (fun n => n.id == pe.source) = some pn →
        pn.type = .user →
        ((∀ n, n ∈ (handleRegenerate nodeId nodes edges).1 ↔
            n ∈ nodes ∧ ¬ Reaches edges nodeId n.id) ∧
         (∀ e, e ∈ (handleRegenerate nodeId nodes edges).2 ↔
            e ∈ edges ∧ ¬ Reaches edges nodeId e.source ∧
              ¬ Reaches edges nodeId e.target))) ∧
    (edges.find? (fun e => e.target == nodeId) = none →
      handleRegenerate nodeId nodes edges = (nodes, edges)) ∧
    (∀ pe, edges.find? (fun e => e.target == nodeId) = some pe →
      nodes.find? (fun n => n.id == pe.source) = none →
      handleRegenerate nodeId nodes edges = (nodes, edges)) ∧
    (∀ pe, edges.find? (fun e => e.target == nodeId) = some pe →
      ∀ pn, nodes.find? (fun n => n.id == pe.source) = some pn →
        pn.type ≠ .user →
        handleRegenerate nodeId nodes edges = (nodes, edges)) := by
  refine ⟨?_, ?_, ?_, ?_⟩
  · intro pe hpe pn hpn htype
    have hred : handleRegenerate nodeId nodes edges =
        (nodes.filter
           (fun n => !((nodeId :: getDescendants nodeId nodes edges).contains n.id)),
         edges.filter
           (fun e => !((nodeId :: getDescendants nodeId nodes edges).contains e.source) &&
             !((nodeId :: getDescendants nodeId nodes edges).contains e.target))) := by
      simp only [handleRegenerate, hpe, hpn, if_pos htype]
    rw [hred]
    constructor
    · intro n
      simp only [List.mem_filter]
      constructor
      · rintro ⟨hn, hb⟩
        refine ⟨hn, fun hr => ?_⟩
        have hmem := (mem_removal_iff nodeId nodes edges n.id).mpr hr
        simp [hmem] at hb
      · rintro ⟨hn, hr⟩
        refine ⟨hn, ?_⟩
        have hnm : n.id ∉ nodeId :: getDescendants nodeId nodes edges :=
          fun hmem => hr ((mem_removal_iff nodeId nodes edges n.id).mp hmem)
        simpa using hnm
    · intro e
      simp only [List.mem_filter, Bool.and_eq_true]
      constructor
      · rintro ⟨he, hb1, hb2⟩
        refine ⟨he, fun hr => ?_, fun hr => ?_⟩
        · have hmem := (mem_removal_iff nodeId nodes edges e.source).mpr hr
          simp [hmem] at hb1
        · have hmem := (mem_removal_iff nodeId nodes edges e.target).mpr hr
          simp [hmem] at hb2
      · rintro ⟨he, hr1, hr2⟩
        refine ⟨he, ?_, ?_⟩
        · have hnm : e.source ∉ nodeId :: getDescendants nodeId nodes edges :=
            fun hmem => hr1 ((mem_removal_iff nodeId nodes edges e.source).mp hmem)
          simpa using hnm
        · have hnm : e.target ∉ nodeId :: getDescendants nodeId nodes edges :=
            fun hmem => hr2 ((mem_removal_iff nodeId nodes edges e.target).mp hmem)
          simpa using hnm
  · intro hnone
    simp only [handleRegenerate, hnone]
  · intro pe hpe hnone
    simp only [handleRegenerate, hpe, hnone]
  · intro pe hpe pn hpn htype
    simp only [handleRegenerate, hpe, hpn, if_neg htype]

/-- Witness for claim C3, exercising the no-inbound-edge no-op branch on a
concrete one-node diagram with no edges. -/
theorem C3_regenerate_subtree_witness :
    handleRegenerate "x" [w1Node] [] = ([w1Node], []) :=
  (C3_regenerate_subtree "x" [w1Node] []).2.1 rfl

/-! ## Conversation orchestrator (App.tsx, `handleSend` and friends) -/

/-- `NODE_WIDTH` (App.tsx line 295). -/
def NODE_WIDTH : ℚ := 350

/-- `USER_NODE_HEIGHT` (App.tsx line 296). -/
def USER_NODE_HEIGHT : ℚ := 80

/-- `AI_NODE_BASE_HEIGHT` (App.tsx line 297). -/
def AI_NODE_BASE_HEIGHT : ℚ := 150

/-- `SOURCE_NODE_HEIGHT` (App.tsx line 298). -/
def SOURCE_NODE_HEIGHT : ℚ := 80

/-- `CODE_NODE_WIDTH` (App.tsx line 299). -/
def CODE_NODE_WIDTH : ℚ := 500

/-- JS truthiness of an optional string field (undefined and "" are falsy). -/
def optStrTruthy : Option String → Bool
  | some s => !(s == "")
  | none => false

/-- `estimateAiNodeSize` (App.tsx lines 346-360): fixed width; height from a
base offset of 40 plus 70/90/60 for the weather/stock/reasoning blocks plus
the text-height estimate max(lineCount·20, charCount·0.45), clamped into
[AI_NODE_BASE_HEIGHT, 800].  The `code` field of the argument object is
ignored by the source's body too. -/
def estimateAiNodeSize (data : NodeData) (_code : Option CodeData) : ℚ × ℚ :=
  let h1 : ℚ := 40 + (if data.weather.isSome then 70 else 0)
  let h2 := h1 + (if data.stock.isSome then 90 else 0)
  let h3 := h2 + (if optStrTruthy data.reasoning then 60 else 0)
  let h4 :=
    if !(data.text == "") then
      let lines : ℚ := ((data.text.toList.filter (fun ch => ch == '\n')).length : ℚ) + 1
      h3 + max (lines * 20) ((data.text.length : ℚ) * 0.45)
    else h3
  (NODE_WIDTH, max AI_NODE_BASE_HEIGHT (min 800 h4))

/-- JS `Map.has`, on the association-list model of a string map. -/
def mapHas (m : List (String × String)) (k : String) : Bool :=
  m.any (fun p => p.1 == k)

/-- JS `Map.get` (`none` for a missing key). -/
def mapGet (m : List (String × String)) (k : String) : Option String :=
  (m.find? (fun p => p.1 == k)).map (fun p => p.2)

/-- JS `Map.set`: overwrite the existing binding or append a new one. -/
def mapSet (m : List (String × String)) (k v : String) : List (String × String) :=
  if mapHas m k then m.map (fun p => if p.1 == k then (k, v) else p) else m ++ [(k, v)]

/-- The two provisional edges pushed on send (App.tsx lines 542-546):
anchor node → new user node, and user node → provisional AI node; no
dedup happens at this mutation. -/
def insertProvisionalEdges (prevEdges : List Edge)
    (sourceNodeId userNodeId aiNodeId : String) : List Edge :=
  prevEdges ++
    [⟨sourceNodeId ++ "-to-" ++ userNodeId, sourceNodeId, userNodeId⟩,
     ⟨userNodeId ++ "-to-" ++ aiNodeId, userNodeId, aiNodeId⟩]

/-- The candidate-pair test of the edge dedup filter (App.tsx line 634). -/
def samePairB (e : Edge) : Edge → Bool := fun e2 =>
  e2.source == e.source && e2.target == e.target

/-- The dedup pass of `handleSend`'s edge update (App.tsx line 634):
`filter((edge, index, self) => index === self.findIndex(samePair))`, i.e.
keep only the first occurrence of each ordered (source, target) pair. -/
def dedupEdges (edges : List Edge) : List Edge :=
  (edges.enum.filter (fun ie => edges.findIdx? (samePairB ie.2) == some ie.1)).map Prod.snd

/-- No two edges of the list share an ordered (source, target) pair. -/
def pairsNodup (edges : List Edge) : Prop :=
  (edges.map (fun e => (e.source, e.target))).Nodup

/-- The entry of `nodesToPlaceInfo` (App.tsx line 566). -/
structure PlaceInfo where
  id : String
  type : NodeType
  data : NodeData
  width : ℚ
  height : ℚ
  startPos : Pt
deriving DecidableEq

/-- The collaborator's non-streaming response as destructured by
`handleSend` (App.tsx line 557). -/
structure GroundedResponseData where
  responseText : String
  sources : List Source
  weather : Option WeatherData := none
  stock : Option StockData := none
  code : Option CodeData := none
  position : Option Pt := none
  reasoning : Option String := none
  sourceNodeId : Option String := none
deriving DecidableEq

/-- The final content object of the AI node (`finalAiData`, App.tsx line
563): the JS object literal sets exactly these fields, so `uri` and
`language` stay absent. -/
def finalAiDataOf (resp : GroundedResponseData) : NodeData :=
  { text := resp.responseText, weather := resp.weather, stock := resp.stock,
    reasoning := resp.reasoning, isLoading := some false, sources := some resp.sources }

/-- `aiStartPos` (App.tsx line 568): the collaborator's suggested position,
defaulting to 600 world units below the user node. -/
def aiStartPosOf (userPos : Pt) (resp : GroundedResponseData) : Pt :=
  resp.position.getD ⟨userPos.x, userPos.y + 600⟩

/-- `existingSourcesMap` (App.tsx lines 572-575): URI → node id over the
current source nodes with a truthy `uri`; a JS `Map` keeps the last binding
per key, which `mapSet` mirrors. -/
def existingSourcesMapOf (nodesCur : List DiagramNode) : List (String × String) :=
  nodesCur.foldl
    (fun m n =>
      if decide (n.type = .source) && optStrTruthy n.data.uri then
        mapSet m (n.data.uri.getD "") n.id
      else m) []

/-- The dedup scan over the cited sources (App.tsx lines 577-584): collect
sources with fresh URIs in order, storing the placeholder id
`new-source-(uri)` into the map for each. -/
def scanSources (sources : List Source) (m0 : List (String × String)) :
    List Source × List (String × String) :=
  sources.foldl
    (fun acc s =>
      if mapHas acc.2 s.uri then acc
      else (acc.1 ++ [s], mapSet acc.2 s.uri ("new-source-" ++ s.uri)))
    ([], m0)

/-- The placement descriptors of the new source nodes (App.tsx lines
586-592): ids `source-(Date.now())-(index)`, spread horizontally below the
AI start position. -/
def sourceInfosOf (ts : ℕ) (aiStartPos : Pt) (newSourceInfos : List Source) :
    List PlaceInfo :=
  newSourceInfos.enum.map
    (fun p =>
      ⟨"source-" ++ toString ts ++ "-" ++ toString p.1, .source,
        { text := p.2.title, uri := some p.2.uri },
        NODE_WIDTH, SOURCE_NODE_HEIGHT,
        ⟨aiStartPos.x + ((p.1 : ℚ) - ((newSourceInfos.length : ℚ) - 1) / 2) * (NODE_WIDTH + 80),
         aiStartPos.y + 400⟩⟩)

/-- The placement descriptor of the generated code node, when any (App.tsx
lines 594-597). -/
def codeInfosOf (ts : ℕ) (aiStartPos : Pt) : Option CodeData → List PlaceInfo
  | some c =>
    [⟨"code-" ++ toString ts, .code, { text := c.content, language := some c.language },
      CODE_NODE_WIDTH, 200, ⟨aiStartPos.x, aiStartPos.y + 400⟩⟩]
  | none => []

/-- The sequential placement loop (App.tsx lines 599-607): each descriptor
is resolved against the growing collision list and appended to it; the k-th
call draws `angles k` as its random initial angle. -/
def placeNodes (tr : Trig ℚ) (turnAngle : ℚ) (angles : ℕ → ℚ)
    (collisionInit : List DiagramNode) (infos : List PlaceInfo) : List DiagramNode :=
  (infos.foldl
    (fun (acc : List DiagramNode × List DiagramNode × ℕ) info =>
      let p := findNonOverlappingPosition tr turnAngle acc.1 info.startPos.x info.startPos.y
        info.width info.height (angles acc.2.2)
      let node : DiagramNode :=
        ⟨info.id, info.type, info.data, ⟨p.1, p.2⟩, info.width, info.height⟩
      (acc.1 ++ [node], acc.2.1 ++ [node], acc.2.2 + 1))
    (collisionInit, [], 0)).2.1

/-- The edges from the AI node to the cited sources (App.tsx lines
614-621): the map lookup wins over the `?? newSourceNodes.find(...)`
fallback whenever the URI is in the map (which, after `scanSources`, is
every cited URI); a falsy (empty) id produces no edge. -/
def sourceEdgesOf (aiNodeId : String) (sources : List Source)
    (sourcesMap : List (String × String)) (newSourceNodes : List DiagramNode) : List Edge :=
  sources.foldl
    (fun (acc : List Edge) s =>
      let sid : Option String := match mapGet sourcesMap s.uri with
        | some v => some v
        | none => (newSourceNodes.find? (fun n => n.data.uri == some s.uri)).map (fun n => n.id)
      match sid with
      | some v => if v == "" then acc else acc ++ [⟨aiNodeId ++ "-to-" ++ v, aiNodeId, v⟩]
      | none => acc) []

/-- The edge from the AI node to the new code node, when any (App.tsx lines
623-625). -/
def codeEdgesOf (aiNodeId : String) : Option DiagramNode → List Edge
  | some n => [⟨aiNodeId ++ "-to-" ++ n.id, aiNodeId, n.id⟩]
  | none => []

/-- `connectionSourceId` (App.tsx line 630): the collaborator's designated
node when truthy and present, else the originating user node. -/
def connectionSourceIdOf (nodesCur : List DiagramNode) (userNodeId : String) :
    Option String → String
  | some cid =>
    if !(cid == "") && nodesCur.any (fun n => n.id == cid) then cid else userNodeId
  | none => userNodeId

/-- The response-finalization step of `handleSend` (App.tsx lines 563-635),
as one pure state transition producing the new node list and edge list,
composed of the block-level helpers above.  Parameters standing for
ambient effects: `tr`/`turnAngle` the foreign trig, `angles k` the
`Math.random()` initial angle of the k-th placement call, `ts` the common
`Date.now()` millisecond, `nodesCur` the nodes visible via
`nodesRef.current` (user and provisional AI node included), `prevEdges` the
edge state at the `setEdges` update, `userPos` the position of the user
node of this turn.  Assumes `responseText` is nonempty (otherwise the
source throws into the failure path, `applyFailure`). -/
def finalizeResponse (tr : Trig ℚ) (turnAngle : ℚ) (angles : ℕ → ℚ) (ts : ℕ)
    (nodesCur : List DiagramNode) (prevEdges : List Edge)
    (aiNodeId userNodeId : String) (userPos : Pt) (resp : GroundedResponseData) :
    List DiagramNode × List Edge :=
  let finalAiData := finalAiDataOf resp
  let estimatedSize := estimateAiNodeSize finalAiData resp.code
  let aiStartPos := aiStartPosOf userPos resp
  let aiInfo : PlaceInfo :=
    ⟨aiNodeId, .ai, finalAiData, estimatedSize.1, estimatedSize.2, aiStartPos⟩
  let scan := scanSources resp.sources (existingSourcesMapOf nodesCur)
  let nodesToPlaceInfo :=
    aiInfo :: (sourceInfosOf ts aiStartPos scan.1 ++ codeInfosOf ts aiStartPos resp.code)
  let collisionInit := nodesCur.filter (fun n => !(n.id == aiNodeId))
  let newlyPlacedNodes := placeNodes tr turnAngle angles collisionInit nodesToPlaceInfo
  let newSourceNodes := newlyPlacedNodes.filter (fun n => decide (n.type = .source))
  let newCodeNode := newlyPlacedNodes.find? (fun n => decide (n.type = .code))
  let newEdges := sourceEdgesOf aiNodeId resp.sources scan.2 newSourceNodes ++
    codeEdgesOf aiNodeId newCodeNode
  let newNodes := nodesCur.filter (fun n => !(n.id == aiNodeId)) ++ newlyPlacedNodes
  let connectionSourceId := connectionSourceIdOf nodesCur userNodeId resp.sourceNodeId
  let edgesWithoutTemporary := prevEdges.filter (fun e => !(e.target == aiNodeId))
  let finalEdges := edgesWithoutTemporary ++ newEdges ++
    [⟨connectionSourceId ++ "-to-" ++ aiNodeId, connectionSourceId, aiNodeId⟩]
  (newNodes, dedupEdges finalEdges)

/-- The failure path of `handleSend` (App.tsx lines 642-652): only the
provisional AI node's data is rewritten (error text, loading cleared); the
`catch` block performs no edge mutation. -/
def applyFailure (nodes : List DiagramNode) (edges : List Edge)
    (aiNodeId errorMessage : String) : List DiagramNode × List Edge :=
  (nodes.map (fun n =>
     if n.id == aiNodeId then
       { n with data := { n.data with
           text := "Sorry, an error occurred: " ++ errorMessage,
           isLoading := some false } }
     else n),
   edges)

/-- `handleSaveEdit` (App.tsx lines 487-503): the edit-and-resend state
mutation — replace the node's text, drop its descendant subtree (the node
itself survives), keep only edges between survivors; no-op when the node is
missing, the new text trims to empty, or the text is unchanged. -/
def handleSaveEdit (nodeId newText : String) (nodes : List DiagramNode)
    (edges : List Edge) : List DiagramNode × List Edge :=
  match nodes.find? (fun n => n.id == nodeId) with
  | none => (nodes, edges)
  | some originalNode =>
    if newText.trim == "" || newText == originalNode.data.text then (nodes, edges)
    else
      let descendants := getDescendants nodeId nodes edges
      ((nodes.map (fun n =>
          if n.id == nodeId then { n with data := { n.data with text := newText } }
          else n)).filter (fun n => !(descendants.contains n.id)),
       edges.filter (fun e => !(descendants.contains e.source) &&
         !(descendants.contains e.target)))

/-- The keep-first-occurrence dedup leaves no two edges with the same
ordered (source, target) pair: a kept entry's enum index is the first index
of its pair, and equal pairs share that first index. -/
theorem dedupEdges_pairsNodup (edges : List Edge) : pairsNodup (dedupEdges edges) := by
  rw [pairsNodup, dedupEdges, List.map_map]
  have hbase : edges.enum.Pairwise (fun x y : ℕ × Edge => x.1 < y.1) := by
    have h1 : List.Pairwise (· < ·) (List.range edges.length) := List.pairwise_lt_range _
    rw [← List.enum_map_fst edges] at h1
    exact List.pairwise_map.mp h1
  have hkept : ∀ x ∈ edges.enum.filter
      (fun ie => edges.findIdx? (samePairB ie.2) == some ie.1),
      List.findIdx? (samePairB x.2) edges = some x.1 := by
    intro x hx
    exact beq_iff_eq.mp (List.mem_filter.mp hx).2
  have hfiltLt := hbase.filter (fun ie => edges.findIdx? (samePairB ie.2) == some ie.1)
  have hfinal : (edges.enum.filter
      (fun ie => edges.findIdx? (samePairB ie.2) == some ie.1)).Pairwise
      (fun x y : ℕ × Edge => ¬ ((x.2.source, x.2.target) = (y.2.source, y.2.target))) := by
    refine List.Pairwise.imp_of_mem ?_ hfiltLt
    intro x y hx hy hlt heq
    have hs : x.2.source = y.2.source := ((Prod.mk.injEq _ _ _ _).mp heq).1
    have ht : x.2.target = y.2.target := ((Prod.mk.injEq _ _ _ _).mp heq).2
    have hpq : samePairB x.2 = samePairB y.2 := by
      funext e2
      rw [samePairB, samePairB, hs, ht]
    have h3 : some x.1 = some y.1 := by
      rw [← hkept x hx, hpq, hkept y hy]
    exact absurd (Option.some.injEq _ _ ▸ h3 : x.1 = y.1) (Nat.ne_of_lt hlt)
  exact List.pairwise_map.mpr hfinal

/-- Filtering a list of edges preserves pair-distinctness. -/
theorem pairsNodup_filter (edges : List Edge) (p : Edge → Bool)
    (h : pairsNodup edges) : pairsNodup (edges.filter p) :=
  List.Nodup.sublist (List.Sublist.map _ (List.filter_sublist edges)) h

/-- Claim C6: after each of the orchestrator's edge mutations the edge set
has at most one edge per ordered (source, target) pair — the provisional
insertion preserves it because the new user/AI node ids are fresh (no
existing edge targets them and they differ), the finalize update ends in an
explicit dedup pass and is unconditionally pair-distinct, and the
regenerate and edit-and-resend mutations only filter the edge list. -/
theorem C6_edge_pair_unique :
    (∀ (prevEdges : List Edge) (sourceNodeId userNodeId aiNodeId : String),
       pairsNodup prevEdges →
       (∀ e ∈ prevEdges, e.target ≠ userNodeId ∧ e.target ≠ aiNodeId) →
       userNodeId ≠ aiNodeId →
       pairsNodup (insertProvisionalEdges prevEdges sourceNodeId userNodeId aiNodeId)) ∧
    (∀ (tr : Trig ℚ) (turnAngle : ℚ) (angles : ℕ → ℚ) (ts : ℕ)
       (nodesCur : List DiagramNode) (prevEdges : List Edge)
       (aiNodeId userNodeId : String) (userPos : Pt) (resp : GroundedResponseData),
       pairsNodup ((finalizeResponse tr turnAngle angles ts nodesCur prevEdges
         aiNodeId userNodeId userPos resp).2)) ∧
    (∀ (nodeId : String) (nodes : List DiagramNode) (edges : List Edge),
       pairsNodup edges → pairsNodup ((handleRegenerate nodeId nodes edges).2)) ∧
    (∀ (nodeId newText : String) (nodes : List DiagramNode) (edges : List Edge),
       pairsNodup edges → pairsNodup ((handleSaveEdit nodeId newText nodes edges).2)) := by
  refine ⟨?_, ?_, ?_, ?_⟩
  · intro prevEdges sourceNodeId userNodeId aiNodeId hnd hfresh hne
    rw [pairsNodup, insertProvisionalEdges, List.map_append]
    rw [List.nodup_append]
    refine ⟨hnd, ?_, ?_⟩
    · simp only [List.map_cons, List.map_nil, List.nodup_cons, List.mem_singleton,
        List.nodup_nil, and_true, List.not_mem_nil, not_false_iff]
      intro hpair
      exact hne (((Prod.mk.injEq _ _ _ _).mp hpair).2)
    · intro a ha hb
      rcases List.mem_map.mp ha with ⟨e, he, rfl⟩
      have hb2 : (e.source, e.target) = (sourceNodeId, userNodeId) ∨
          (e.source, e.target) = (userNodeId, aiNodeId) := by
        simpa using hb
      rcases hb2 with heq | heq
      · exact (hfresh e he).1 (((Prod.mk.injEq _ _ _ _).mp heq).2)
      · exact (hfresh e he).2 (((Prod.mk.injEq _ _ _ _).mp heq).2)
  · intro tr turnAngle angles ts nodesCur prevEdges aiNodeId userNodeId userPos resp
    exact dedupEdges_pairsNodup _
  · intro nodeId nodes edges h
    rw [handleRegenerate]
    split
    · exact h
    · split
      · exact h
      · split
        · exact pairsNodup_filter _ _ h
        · exact h
  · intro nodeId newText nodes edges h
    rw [handleSaveEdit]
    split
    · exact h
    · split
      · exact h
      · exact pairsNodup_filter _ _ h

/-- Witness for claim C6: inserting the provisional edges into the empty
edge set with fresh ids gives a pair-distinct edge set. -/
theorem C6_edge_pair_unique_witness :
    pairsNodup (insertProvisionalEdges [] "start-node" "user-1" "ai-1") :=
  C6_edge_pair_unique.1 [] "start-node" "user-1" "ai-1"
    (by simp [pairsNodup]) (by simp) (by decide)

/-- Claim C8: on a failed collaborator call, the diagram differs from the
pre-failure state only in the provisional AI node's content — the edge set
is untouched, no node is added or removed, every node with a different id
is unchanged, the provisional node survives with its text replaced by a
visible error message and its loading flag cleared, and every other field
of every node is preserved. -/
theorem C8_failure_only_rewrites_provisional (nodes : List DiagramNode)
    (edges : List Edge) (aiNodeId errorMessage : String) :
    ((applyFailure nodes edges aiNodeId errorMessage).2 = edges) ∧
    ((applyFailure nodes edges aiNodeId errorMessage).1.length = nodes.length) ∧
    (∀ n ∈ nodes, n.id ≠ aiNodeId →
      n ∈ (applyFailure nodes edges aiNodeId errorMessage).1) ∧
    (∀ n ∈ nodes, n.id = aiNodeId →
      { n with data := { n.data with
          text := "Sorry, an error occurred: " ++ errorMessage,
          isLoading := some false } } ∈
        (applyFailure nodes edges aiNodeId errorMessage).1) ∧
    (∀ m ∈ (applyFailure nodes edges aiNodeId errorMessage).1,
      ∃ n ∈ nodes, m.id = n.id ∧ m.type = n.type ∧ m.position = n.position ∧
        m.width = n.width ∧ m.height = n.height ∧
        m.data.uri = n.data.uri ∧ m.data.sources = n.data.sources ∧
        m.data.weather = n.data.weather ∧ m.data.stock = n.data.stock ∧
        m.data.reasoning = n.data.reasoning ∧ m.data.language = n.data.language ∧
        (n.id ≠ aiNodeId → m = n) ∧
        (n.id = aiNodeId →
          m.data.text = "Sorry, an error occurred: " ++ errorMessage ∧
            m.data.isLoading = some false)) := by
  refine ⟨rfl, by simp [applyFailure], ?_, ?_, ?_⟩
  · intro n hn hne
    rw [applyFailure]
    refine List.mem_map.mpr ⟨n, hn, ?_⟩
    rw [if_neg (by simpa using hne)]
  · intro n hn heq
    rw [applyFailure]
    refine List.mem_map.mpr ⟨n, hn, ?_⟩
    rw [if_pos (by simpa using heq)]
  · intro m hm
    rw [applyFailure] at hm
    rcases List.mem_map.mp hm with ⟨n, hn, hfn⟩
    refine ⟨n, hn, ?_⟩
    by_cases hid : n.id = aiNodeId
    · rw [if_pos (by simpa using hid)] at hfn
      subst hfn
      exact ⟨rfl, rfl, rfl, rfl, rfl, rfl, rfl, rfl, rfl, rfl, rfl,
        fun hne => absurd hid hne, fun _ => ⟨rfl, rfl⟩⟩
    · rw [if_neg (by simpa using hid)] at hfn
      subst hfn
      exact ⟨rfl, rfl, rfl, rfl, rfl, rfl, rfl, rfl, rfl, rfl, rfl,
        fun _ => rfl, fun heq => absurd heq hid⟩

/-- Witness for claim C8: on a concrete one-node diagram whose node is not
the provisional one, the node survives the failure path unchanged. -/
theorem C8_failure_only_rewrites_provisional_witness :
    w1Node ∈ (applyFailure [w1Node] [] "ai-7" "boom").1 :=
  (C8_failure_only_rewrites_provisional [w1Node] [] "ai-7" "boom").2.2.1 w1Node
    (by simp) (by decide)

/-- The user node of the C2 failing run. -/
def c2UserNode : DiagramNode :=
  { id := "u", type := .user, data := { text := "hi" }, position := ⟨0, 0⟩,
    width := 350, height := 80 }

/-- The provisional AI node of the C2 failing run. -/
def c2AiNode : DiagramNode :=
  { id := "a", type := .ai, data := { text := "", isLoading := some true },
    position := ⟨0, 350⟩, width := 350, height := 150 }

/-- A response citing one source whose URI has no existing node. -/
def c2Resp : GroundedResponseData :=
  { responseText := "hi", sources := [⟨"http://x", "X"⟩], position := some ⟨5000, 5000⟩ }

/-- The finalize step of the C2 failing run (fresh URI, no collisions). -/
def c2Out : List DiagramNode × List Edge :=
  finalizeResponse trMock 1 (fun _ => 0) 0 [c2UserNode, c2AiNode]
    [⟨"u-to-a", "u", "a"⟩] "a" "u" ⟨0, 0⟩ c2Resp

/-- Claim C2 is right about the intent and wrong about the code: on a
response citing one source with a fresh URI, the finalize step creates the
source node with id "source-0-0", but the edge out of the AI node targets
the placeholder id "new-source-(uri)" stored into the URI map (so the `??
newSourceNodes.find(...)` fallback meant to resolve the real id is dead
code): no node carries the placeholder id — the edge dangles — and no edge
targets the node actually inserted. -/
theorem C2_source_edge_targets_placeholder :
    (c2Out.1.any (fun n => n.id == "source-0-0" && decide (n.type = .source)) = true) ∧
    (c2Out.2.any (fun e => e.source == "a" && e.target == "new-source-http://x") = true) ∧
    (c2Out.1.any (fun n => n.id == "new-source-http://x") = false) ∧
    (c2Out.2.any (fun e => e.target == "source-0-0") = false) := by
  decide

end AiDigrm
